import Mathlib

/-!
Verification of the perception-action automation engine of the ROK_bot
repository against its specification.

The Python sources are shallowly embedded: pure image/geometry computations
become Lean functions over exact rationals, stateful components become
explicit state passing, sequences of perception calls become oracles
indexed by call order, and the control loop becomes a fuel-indexed step
function.  Machine floats in the source carry exact values produced by
library calls (correlation scores, random draws); they are modelled as
rationals supplied as explicit inputs.
-/

/-! ## Perception engine: `ImageProcessor.find_template` (src/adb_utils.py)

`cv2.matchTemplate` produces a correlation surface; it is modelled as the
list of its cells `((x, y), value)` in scan order.  `cv2.minMaxLoc` returns
(among other data) the maximum value and the first location attaining it;
only that part is used by `find_template`, so only it is embedded. -/

/-- The `(max_loc, max_val)` part of `cv2.minMaxLoc`: the first cell of the
correlation surface attaining the maximum value, `none` on the empty
surface.  A strictly larger later cell replaces the current best, mirroring
the scan of `minMaxLoc`. -/
def minMaxLocMax : List ((Nat × Nat) × ℚ) → Option ((Nat × Nat) × ℚ)
  | [] => none
  | e :: es =>
    match minMaxLocMax es with
    | none => some e
    | some m => if e.2 < m.2 then some m else some e

/-- `ImageProcessor.find_template`: look up the global maximum of the
correlation surface; if `max_val >= threshold` return the region
`(max_loc.x, max_loc.y, w, h)` where `(w, h)` are the template dimensions,
else return `none`.  Load failures and exceptions also yield `none` in the
source; they correspond to an empty surface here. -/
def find_template (surface : List ((Nat × Nat) × ℚ)) (w h : Nat)
    (threshold : ℚ) : Option (Nat × Nat × Nat × Nat) :=
  match minMaxLocMax surface with
  | none => none
  | some (loc, maxVal) =>
    if threshold ≤ maxVal then some (loc.1, loc.2, w, h) else none

/-! ## Perception engine: non-maximum suppression (src/adb_utils.py)

`ImageProcessor._non_max_suppression` works on boxes `(x, y, w, h)`; it
computes corners `x2 = x + w`, `y2 = y + h`, inclusive pixel areas
`(x2 - x1 + 1) * (y2 - y1 + 1)`, sorts candidates by ascending bottom edge
`y2` and repeatedly selects the last (a maximal `y2`), discarding remaining
candidates whose intersection-over-union with it exceeds the overlap
threshold (default 0.3). -/

/-- A candidate bounding box `(x, y, width, height)` with integer pixel
coordinates, as produced by `find_all_templates`. -/
structure Box where
  x : ℤ
  y : ℤ
  w : ℤ
  h : ℤ
deriving DecidableEq

/-- Right edge `x2 = x1 + w` of a box, as computed in the source. -/
def Box.x2 (b : Box) : ℤ := b.x + b.w

/-- Bottom edge `y2 = y1 + h` of a box, as computed in the source. -/
def Box.y2 (b : Box) : ℤ := b.y + b.h

/-- Inclusive pixel area `(x2 - x1 + 1) * (y2 - y1 + 1)` of a box. -/
def Box.area (b : Box) : ℤ := (b.x2 - b.x + 1) * (b.y2 - b.y + 1)

/-- Intersection area of two boxes under the source's inclusive-pixel
convention: `max 0 (xx2 - xx1 + 1) * max 0 (yy2 - yy1 + 1)`. -/
def interArea (a b : Box) : ℤ :=
  max 0 (min a.x2 b.x2 - max a.x b.x + 1) *
    max 0 (min a.y2 b.y2 - max a.y b.y + 1)

/-- Intersection-over-union as the source computes it:
`inter_area / (areas[i] + areas[remaining] - inter_area)`. -/
def iou (a b : Box) : ℚ :=
  (interArea a b : ℚ) / ((a.area : ℚ) + (b.area : ℚ) - (interArea a b : ℚ))

/-- Select a candidate with maximal bottom edge `y2` (the last entry of the
ascending `argsort` by `y2` in the source) and return it together with the
remaining candidates. -/
def pickMaxY2 : List Box → Option (Box × List Box)
  | [] => none
  | b :: bs =>
    match pickMaxY2 bs with
    | none => some (b, [])
    | some (m, rest) => if b.y2 < m.y2 then some (m, b :: rest) else some (b, bs)

/-- The suppression loop: select the candidate with maximal `y2`, keep it,
drop every remaining candidate whose IoU with it exceeds the overlap
threshold (`indices = remaining[overlap <= overlap_threshold]`), repeat.
Fuel bounds the iteration count; one candidate is consumed per round, so
`length` fuel is enough. -/
def nmsAux (o : ℚ) : Nat → List Box → List Box
  | 0, _ => []
  | fuel + 1, boxes =>
    match pickMaxY2 boxes with
    | none => []
    | some (m, rest) => m :: nmsAux o fuel (rest.filter (fun b => iou m b ≤ o))

/-- `ImageProcessor._non_max_suppression` with overlap threshold `o`
(source default 0.3). -/
def non_max_suppression (boxes : List Box) (o : ℚ) : List Box :=
  nmsAux o boxes.length boxes

/-- `ImageProcessor.find_all_templates`: collect every surface cell with
value `>= threshold` into a `(x, y, w, h)` box (`w`, `h` the template
dimensions), then apply non-maximum suppression with the default overlap
threshold 0.3. -/
def find_all_templates (surface : List ((Nat × Nat) × ℚ)) (w h : Nat)
    (threshold : ℚ) : List Box :=
  non_max_suppression
    ((surface.filter (fun e => threshold ≤ e.2)).map
      (fun e => ⟨(e.1.1 : ℤ), (e.1.2 : ℤ), (w : ℤ), (h : ℤ)⟩))
    (3 / 10)

/-! ## Humanization model: `HumanBehavior` (src/humanizer.py)

Wall-clock time and the Gaussian draw of `np.random.normal` are exact
values in the source's floats; they enter the embedding as explicit
rational parameters.  `time.time()` is non-decreasing, which the
reachability relation records. -/

/-- The mutable state of `HumanBehavior.__init__`: session start time,
action counter, the timing constants set in `__init__`
(`min_action_delay = 0.3`, `max_action_delay = 1.5`), the fatigue factor
and the rolled break threshold `actions_before_break`. -/
structure HumanBehavior where
  session_start : ℚ
  action_count : Nat
  min_action_delay : ℚ
  max_action_delay : ℚ
  fatigue_factor : ℚ
  actions_before_break : Nat

/-- `HumanBehavior.__init__` at time `t` with rolled break threshold
`abb` (`random.randint(50, 100)` in the source). -/
def HumanBehavior.init (t : ℚ) (abb : Nat) : HumanBehavior :=
  ⟨t, 0, 3 / 10, 3 / 2, 0, abb⟩

/-- `HumanBehavior.human_delay`: the Gaussian draw `g` is clamped to
`[min_action_delay, max_action_delay]`, then `fatigue_factor * 0.5` is
added. -/
def human_delay (s : HumanBehavior) (g : ℚ) : ℚ :=
  max s.min_action_delay (min s.max_action_delay g) + s.fatigue_factor * (1 / 2)

/-- `HumanBehavior.wait_human` observed at wall-clock time `now`: sleeps,
increments the action counter, and recomputes the fatigue factor as
`min(2.0, session_duration / 3600)`. -/
def wait_human (s : HumanBehavior) (now : ℚ) : HumanBehavior :=
  { s with
    action_count := s.action_count + 1,
    fatigue_factor := min 2 ((now - s.session_start) / 3600) }

/-- `HumanBehavior.take_break`: sleeps for a random duration, then resets
the action counter, re-rolls `actions_before_break` (`nt`), and resets the
fatigue factor to 0.  `session_start` is not touched. -/
def take_break (s : HumanBehavior) (nt : Nat) : HumanBehavior :=
  { s with action_count := 0, actions_before_break := nt, fatigue_factor := 0 }

/-- The humanizer states reachable from `__init__` by `wait_human` and
`take_break` calls, indexed by the current wall-clock time, which never
decreases (a break advances time by its nonnegative sleep duration). -/
inductive Reachable : ℚ → HumanBehavior → Prop
  | init (t : ℚ) (abb : Nat) : Reachable t (HumanBehavior.init t abb)
  | wait {t : ℚ} {s : HumanBehavior} (now : ℚ) :
      Reachable t s → t ≤ now → Reachable now (wait_human s now)
  | rest {t : ℚ} {s : HumanBehavior} (d : ℚ) (nt : Nat) :
      Reachable t s → 0 ≤ d → Reachable (t + d) (take_break s nt)

/-! ## Session randomizer: `randomize_task_order` (src/humanizer.py)

`random.shuffle` is the Fisher–Yates loop
`for i in reversed(range(1, n)): j = randbelow(i + 1); swap x[i] x[j]`;
the random draws are an oracle `r`, reduced mod `i + 1` exactly as
`_randbelow` guarantees `j ≤ i`. -/

/-- Swap the elements at positions `i` and `j` (`x[i], x[j] = x[j], x[i]`);
out-of-range positions leave the list unchanged (the shuffle loop only
produces in-range ones). -/
def listSwap {α : Type u} (l : List α) (i j : Nat) : List α :=
  match l[i]?, l[j]? with
  | some a, some b => (l.set i b).set j a
  | _, _ => l

/-- The Fisher–Yates loop of `random.shuffle`, processing positions
`i, i - 1, ..., 1`, swapping position `k` with a random position
`r k % (k + 1) ≤ k`. -/
def shuffleAux {α : Type u} (r : Nat → Nat) : Nat → List α → List α
  | 0, l => l
  | i + 1, l => shuffleAux r i (listSwap l (i + 1) (r (i + 1) % (i + 2)))

/-- `SessionRandomizer.randomize_task_order`: copy the task list and
`random.shuffle` the copy. -/
def randomize_task_order {α : Type u} (r : Nat → Nat) (tasks : List α) :
    List α :=
  shuffleAux r (tasks.length - 1) tasks

/-! ## Humanization model: `bezier_curve` (src/humanizer.py)

The two control points carry the `random.randint(-50, 50)` jitter already
added, so they are plain inputs.  Python `int()` truncates toward zero;
Python `/` raises `ZeroDivisionError` on a zero denominator, which the
embedding surfaces through `Except`. -/

/-- A division-by-zero error, the only exception `bezier_curve` can
raise. -/
inductive PyError where
  | zeroDivision
deriving DecidableEq

/-- Python `int()` on an exact rational: truncation toward zero. -/
def pyInt (q : ℚ) : ℤ := Int.tdiv q.num (q.den : ℤ)

/-- One cubic Bézier sample at parameter `t`:
`(1-t)^3 s + 3 (1-t)^2 t c1 + 3 (1-t) t^2 c2 + t^3 e` per axis, then
`int()`. -/
def bezierPoint (s c1 c2 e : ℤ × ℤ) (t : ℚ) : ℤ × ℤ :=
  (pyInt ((1 - t) ^ 3 * s.1 + 3 * (1 - t) ^ 2 * t * c1.1 +
      3 * (1 - t) * t ^ 2 * c2.1 + t ^ 3 * e.1),
    pyInt ((1 - t) ^ 3 * s.2 + 3 * (1 - t) ^ 2 * t * c1.2 +
      3 * (1 - t) * t ^ 2 * c2.2 + t ^ 3 * e.2))

/-- The sampling loop of `bezier_curve` over the listed indices: each
iteration computes `t = i / (num_points - 1)`, raising `ZeroDivisionError`
when the denominator is zero. -/
def bezierAux (s c1 c2 e : ℤ × ℤ) (n : Nat) :
    List Nat → Except PyError (List (ℤ × ℤ))
  | [] => Except.ok []
  | i :: is =>
    if (n : ℤ) - 1 = 0 then Except.error PyError.zeroDivision
    else
      match bezierAux s c1 c2 e n is with
      | Except.error err => Except.error err
      | Except.ok ps =>
        Except.ok (bezierPoint s c1 c2 e ((i : ℚ) / ((n : ℚ) - 1)) :: ps)

/-- `HumanBehavior.bezier_curve` with start `s`, control points `c1`, `c2`
(start/end plus jitter) and endpoint `e`: sample `num_points` parameters
`i / (num_points - 1)` for `i in range(num_points)`. -/
def bezier_curve (s c1 c2 e : ℤ × ℤ) (num_points : Nat) :
    Except PyError (List (ℤ × ℤ)) :=
  bezierAux s c1 c2 e num_points (List.range num_points)

/-- The list of points `bezier_curve` produces when no error occurs. -/
def bezierPts (s c1 c2 e : ℤ × ℤ) (n : Nat) : List (ℤ × ℤ) :=
  (List.range n).map
    (fun i : Nat => bezierPoint s c1 c2 e ((i : ℚ) / ((n : ℚ) - 1)))

/-! ## Task state machine (src/state_machine.py)

Each task step is a `find_and_tap` call: grab a screenshot, match one
template, tap on success.  A run of a task is determined by the sequence
of these boolean outcomes, modelled as an oracle `env : Nat → Bool`
indexed by the call number; each concrete task below threads the call
counter exactly along the source's control flow. -/

/-- `BaseTask.find_and_tap` as seen by a task: the outcome of the `k`-th
perception call, and the advanced call counter. -/
def find_and_tap (env : Nat → Bool) (k : Nat) : Bool × Nat := (env k, k + 1)

/-- The resource type held by `ResourceGatheringTask`; `unknown` stands for
any string outside the four keys of `resource_templates`. -/
inductive ResourceKind where
  | food | wood | stone | gold | unknown
deriving DecidableEq

/-- The membership test `self.resource_type in self.resource_templates`. -/
def resource_known : ResourceKind → Bool
  | ResourceKind.unknown => false
  | _ => true

/-- `ResourceGatheringTask._navigate_to_map`: one `find_and_tap` on the map
button. -/
def navigate_to_map (env : Nat → Bool) (k : Nat) : Bool × Nat :=
  find_and_tap env k

/-- `ResourceGatheringTask._find_resource_node`: search button, then (if
the resource type is known) the resource filter, then the first resource
node; any miss returns `False`. -/
def find_resource_node (env : Nat → Bool) (rt : ResourceKind) (k : Nat) :
    Bool × Nat :=
  let r1 := find_and_tap env k
  if r1.1 then
    if resource_known rt then
      let r2 := find_and_tap env r1.2
      if r2.1 then
        let r3 := find_and_tap env r2.2
        (r3.1, r3.2)
      else (false, r2.2)
    else (false, r1.2)
  else (false, r1.2)

/-- `ResourceGatheringTask._send_gathering_troops`: gather button, then
commander slot, then confirm; any miss returns `False`. -/
def send_gathering_troops (env : Nat → Bool) (k : Nat) : Bool × Nat :=
  let r1 := find_and_tap env k
  if r1.1 then
    let r2 := find_and_tap env r1.2
    if r2.1 then
      let r3 := find_and_tap env r2.2
      (r3.1, r3.2)
    else (false, r2.2)
  else (false, r1.2)

/-- `ResourceGatheringTask.execute`: navigate → find node → send troops;
the first failing step returns `False` at once.  The second component
counts the `log_gathering_trip` events emitted (exactly one, on
success). -/
def resourceGatheringExecute (env : Nat → Bool) (rt : ResourceKind) :
    Bool × Nat :=
  let r1 := navigate_to_map env 0
  if r1.1 then
    let r2 := find_resource_node env rt r1.2
    if r2.1 then
      let r3 := send_gathering_troops env r2.2
      if r3.1 then (true, 1) else (false, 0)
    else (false, 0)
  else (false, 0)

/-- `HealTroopsTask.execute`: hospital button (miss returns `False`), then
heal-all button and confirm; if either of those is missing the task falls
through to `return True` ("no wounded troops to heal"). -/
def healTroopsExecute (env : Nat → Bool) : Bool :=
  let r1 := find_and_tap env 0
  if r1.1 then
    let r2 := find_and_tap env r1.2
    if r2.1 then
      let r3 := find_and_tap env r2.2
      if r3.1 then true else true
    else true
  else false

/-- The attack loop of `BarbarianAttackTask.execute` starting at attempt
index `i` with `rem` attempts remaining.  Returns
`(attacks_completed, attempts made, break checks performed)`: a successful
attempt increments all three and continues; a failed attempt counts as an
attempt and exits the loop immediately (the `break` precedes the
`should_take_break` check). -/
def barbAux (attacks : Nat → Bool) : Nat → Nat → Nat × Nat × Nat
  | _, 0 => (0, 0, 0)
  | i, rem + 1 =>
    if attacks i then
      ((barbAux attacks (i + 1) rem).1 + 1,
        (barbAux attacks (i + 1) rem).2.1 + 1,
        (barbAux attacks (i + 1) rem).2.2 + 1)
    else (0, 1, 0)

/-- `BarbarianAttackTask.execute` with `attack_count = n` and per-attempt
outcomes `attacks`: runs the loop and returns
`(attacks_completed > 0, attacks_completed, attempts, break checks)`. -/
def barbarianAttackExecute (attacks : Nat → Bool) (n : Nat) :
    Bool × Nat × Nat × Nat :=
  (decide (0 < (barbAux attacks 0 n).1), (barbAux attacks 0 n).1,
    (barbAux attacks 0 n).2.1, (barbAux attacks 0 n).2.2)

/-- The bulk-collection loop (`while self.find_and_tap(...)`), with `rem`
iterations allowed before the safety cap trips: each successful find
increments the counter and continues; a miss exits; reaching the cap
breaks out.  Returns the number of collection iterations performed. -/
def bulkCollect (env : Nat → Bool) : Nat → Nat → Nat
  | _, 0 => 0
  | k, rem + 1 => if env k then bulkCollect env (k + 1) rem + 1 else 0

/-- `AllianceHelpTask.execute`: open the alliance menu (call 0; miss
returns `False`), then collect help-all up to the `max_helps = 50` safety
cap; returns `(help_count > 0, help_count)`. -/
def allianceHelpExecute (env : Nat → Bool) : Bool × Nat :=
  if env 0 then
    (decide (0 < bulkCollect env 1 50), bulkCollect env 1 50)
  else (false, 0)

/-- `DailyQuestsTask.execute`: open the quests menu (call 0; miss returns
`False`), then collect quest rewards up to the `max_quests = 20` safety
cap; returns `(quests_collected > 0, quests_collected)`. -/
def dailyQuestsExecute (env : Nat → Bool) : Bool × Nat :=
  if env 0 then
    (decide (0 < bulkCollect env 1 20), bulkCollect env 1 20)
  else (false, 0)

/-! ## Control loop: `BotCore._run_bot_loop` (src/bot_core.py)

One `while self.running` iteration runs the cycle body inside
`try/except`; the body may finish normally (possibly mutating state via
the signals `stop`/`pause` observed at its checkpoints) or raise.  The
body is an arbitrary function, the loop is fuel-indexed: `none` means the
loop is still running when the fuel runs out. -/

/-- Observable events of the control loop recorded for the claims: the
fixed cooldown sleep executed after a caught exception. -/
inductive LoopEvent where
  | errorCooldown (seconds : Nat)
deriving DecidableEq

/-- The flags of `BotCore` owned by the loop. -/
structure BotState where
  running : Bool
  paused : Bool
deriving DecidableEq

/-- `BotCore._run_bot_loop`: while `running`, run the cycle body; a normal
body emits its events and yields the next state; a raised exception is
caught at the loop level, logged, followed by the fixed 30-second cooldown
(`time.sleep(30)`), and the loop retries with the state unchanged.  The
loop returns (`some` final state) only when `running` is `false`. -/
def runLoop (body : Nat → BotState → Except Unit (BotState × List LoopEvent)) :
    Nat → BotState → Option BotState × List LoopEvent
  | 0, _ => (none, [])
  | n + 1, s =>
    if s.running then
      match body n s with
      | Except.ok (s', evs) =>
        ((runLoop body n s').1, evs ++ (runLoop body n s').2)
      | Except.error _ =>
        ((runLoop body n s).1, LoopEvent.errorCooldown 30 :: (runLoop body n s).2)
    else (some s, [])

/-! ## Lemmas about the perception engine -/

theorem minMaxLocMax_eq_none (l : List ((Nat × Nat) × ℚ))
    (h : minMaxLocMax l = none) : l = [] := by
  cases l with
  | nil => rfl
  | cons a l =>
    unfold minMaxLocMax at h
    split at h
    · exact absurd h (by simp)
    · split at h <;> simp at h

theorem minMaxLocMax_isMax (l : List ((Nat × Nat) × ℚ))
    (m : (Nat × Nat) × ℚ) (hm : minMaxLocMax l = some m) :
    ∀ e ∈ l, e.2 ≤ m.2 := by
  induction l generalizing m with
  | nil => simp [minMaxLocMax] at hm
  | cons a l ih =>
    intro e he
    rw [List.mem_cons] at he
    unfold minMaxLocMax at hm
    split at hm
    next h1 =>
      have hl := minMaxLocMax_eq_none l h1
      subst hl
      simp at hm he
      simp [he, ← hm]
    next m' h1 =>
      split_ifs at hm with hc <;> simp at hm <;> subst hm
      · rcases he with he | he
        · exact he ▸ le_of_lt hc
        · exact ih m' h1 e he
      · rcases he with he | he
        · exact le_of_eq (by rw [he])
        · exact le_trans (ih m' h1 e he) (not_lt.mp hc)

theorem pickMaxY2_mem (l : List Box) (m : Box) (rest : List Box)
    (h : pickMaxY2 l = some (m, rest)) : m ∈ l := by
  induction l generalizing m rest with
  | nil => simp [pickMaxY2] at h
  | cons b bs ih =>
    unfold pickMaxY2 at h
    split at h
    · simp at h
      simp [h.1]
    next m' rest' h1 =>
      split_ifs at h with hc <;> simp at h
      · exact List.mem_cons.mpr (Or.inr (h.1 ▸ ih m' rest' h1))
      · exact List.mem_cons.mpr (Or.inl h.1.symm)

theorem pickMaxY2_rest_subset (l : List Box) (m : Box) (rest : List Box)
    (h : pickMaxY2 l = some (m, rest)) : ∀ x ∈ rest, x ∈ l := by
  induction l generalizing m rest with
  | nil => simp [pickMaxY2] at h
  | cons b bs ih =>
    unfold pickMaxY2 at h
    split at h
    · simp at h
      simp [h.2]
    next m' rest' h1 =>
      split_ifs at h with hc <;> simp at h
      · intro x hx
        rw [← h.2, List.mem_cons] at hx
        rcases hx with hx | hx
        · simp [hx]
        · exact List.mem_cons.mpr (Or.inr (ih m' rest' h1 x hx))
      · intro x hx
        exact List.mem_cons.mpr (Or.inr (h.2 ▸ hx))

theorem nmsAux_mem (o : ℚ) (fuel : Nat) (l : List Box) :
    ∀ x ∈ nmsAux o fuel l, x ∈ l := by
  induction fuel generalizing l with
  | zero => simp [nmsAux]
  | succ fuel ih =>
    intro x hx
    unfold nmsAux at hx
    split at hx
    · simp at hx
    next m rest h1 =>
      rw [List.mem_cons] at hx
      rcases hx with hx | hx
      · exact hx ▸ pickMaxY2_mem l m rest h1
      · have h2 := List.mem_filter.mp (ih _ x hx)
        exact pickMaxY2_rest_subset l m rest h1 x h2.1

theorem nmsAux_pairwise (o : ℚ) (fuel : Nat) (l : List Box) :
    (nmsAux o fuel l).Pairwise (fun a b => iou a b ≤ o) := by
  induction fuel generalizing l with
  | zero => simp [nmsAux]
  | succ fuel ih =>
    unfold nmsAux
    split
    · simp
    next m rest h1 =>
      refine List.Pairwise.cons ?_ (ih _)
      intro b hb
      have hbf := List.mem_filter.mp (nmsAux_mem o fuel _ b hb)
      exact of_decide_eq_true hbf.2

theorem interArea_comm (a b : Box) : interArea a b = interArea b a := by
  unfold interArea
  rw [min_comm a.x2 b.x2, max_comm a.x b.x, min_comm a.y2 b.y2,
    max_comm a.y b.y]

/-- Claim C1: for every screenshot, template and threshold, `find_template`
returns a region only when the global maximum of the correlation surface
has confidence at least the threshold (the returned region is that global
maximum), and returns `none` whenever the global maximum is below the
threshold; it never returns a region whose confidence is below the
threshold. -/
theorem find_template_threshold (surface : List ((Nat × Nat) × ℚ))
    (w h : Nat) (t : ℚ) :
    (∀ x y w' h', find_template surface w h t = some (x, y, w', h') →
      ∃ v, minMaxLocMax surface = some ((x, y), v) ∧ t ≤ v ∧
        ∀ e ∈ surface, e.2 ≤ v) ∧
    (∀ loc v, minMaxLocMax surface = some (loc, v) → v < t →
      find_template surface w h t = none) := by
  constructor
  · intro x y w' h' hf
    unfold find_template at hf
    split at hf
    · simp at hf
    next loc v h1 =>
      split_ifs at hf with hc
      · simp at hf
        refine ⟨v, ?_, hc, minMaxLocMax_isMax surface _ h1⟩
        rw [h1]
        simp [← hf.1, ← hf.2.1]
  · intro loc v h1 hv
    unfold find_template
    split
    · rfl
    next loc' v' h2 =>
      rw [h1] at h2
      simp at h2
      rw [if_neg (not_le.mpr (h2.2 ▸ hv))]

/-- Claim C1 witness: a one-cell surface with confidence 9/10 against
threshold 4/5 returns the region at the global maximum. -/
theorem find_template_threshold_witness :
    ∃ v, minMaxLocMax [((1, 2), (9 : ℚ) / 10)] = some ((1, 2), v) ∧
      (4 : ℚ) / 5 ≤ v ∧ ∀ e ∈ [((1, 2), (9 : ℚ) / 10)], e.2 ≤ v :=
  (find_template_threshold [((1, 2), (9 : ℚ) / 10)] 5 7 ((4 : ℚ) / 5)).1
    1 2 5 7 (by norm_num [find_template, minMaxLocMax])

/-- Claim C2: the boxes returned by non-maximum suppression (hence by
`find_all_templates`, which applies it with the default overlap threshold
0.3) are pairwise non-overlapping above the overlap threshold: no two
returned regions have intersection-over-union greater than it.  The IoU
is symmetric, so the bound holds for every unordered pair. -/
theorem nms_pairwise_iou (o : ℚ) (boxes : List Box) :
    (non_max_suppression boxes o).Pairwise (fun a b => iou a b ≤ o) ∧
    (∀ surface w h t, (find_all_templates surface w h t).Pairwise
      (fun a b => iou a b ≤ 3 / 10)) ∧
    (∀ a b : Box, iou a b = iou b a) := by
  refine ⟨nmsAux_pairwise o boxes.length boxes, ?_, ?_⟩
  · intro surface w h t
    exact nmsAux_pairwise _ _ _
  · intro a b
    unfold iou
    rw [interArea_comm, add_comm (a.area : ℚ)]

/-! ## Lemmas about the humanization model -/

theorem reachable_inv (t : ℚ) (s : HumanBehavior) (h : Reachable t s) :
    s.session_start ≤ t ∧ 0 ≤ s.fatigue_factor ∧ s.fatigue_factor ≤ 2 ∧
      s.min_action_delay = 3 / 10 ∧ s.max_action_delay = 3 / 2 := by
  induction h with
  | init t abb => simp [HumanBehavior.init]
  | @wait t' s' now h hle ih =>
    refine ⟨le_trans ih.1 hle, ?_, ?_, ih.2.2.2⟩
    · simp only [wait_human]
      have hsub : (0 : ℚ) ≤ now - s'.session_start :=
        sub_nonneg.mpr (le_trans ih.1 hle)
      have h0 : (0 : ℚ) ≤ (now - s'.session_start) / 3600 := by positivity
      exact le_min (by norm_num) h0
    · simp only [wait_human]
      exact min_le_left _ _
  | @rest t' s' d nt h hd ih =>
    refine ⟨?_, by simp [take_break], by simp [take_break], ih.2.2.2⟩
    simp only [take_break]
    exact le_trans ih.1 (by linarith)

/-- Claim C4: the fatigue factor of every reachable humanizer state lies in
`[0, 2]`; after every `wait_human` it equals
`min(2.0, elapsed session seconds / 3600)`; it is monotonically
non-decreasing across successive `wait_human` calls within a session; and
`take_break` resets it to 0. -/
theorem fatigue_factor_spec :
    (∀ t s, Reachable t s → 0 ≤ s.fatigue_factor ∧ s.fatigue_factor ≤ 2) ∧
    (∀ s now, (wait_human s now).fatigue_factor =
      min 2 ((now - s.session_start) / 3600)) ∧
    (∀ s t1 t2, t1 ≤ t2 → (wait_human s t1).fatigue_factor ≤
      (wait_human (wait_human s t1) t2).fatigue_factor) ∧
    (∀ s nt, (take_break s nt).fatigue_factor = 0) := by
  refine ⟨?_, ?_, ?_, ?_⟩
  · intro t s h
    exact ⟨(reachable_inv t s h).2.1, (reachable_inv t s h).2.2.1⟩
  · intro s now
    rfl
  · intro s t1 t2 h12
    simp only [wait_human]
    have : (t1 - s.session_start) / 3600 ≤ (t2 - s.session_start) / 3600 := by
      gcongr
    exact min_le_min le_rfl this
  · intro s nt
    rfl

/-- Claim C4 witness: half an hour into a session started at time 0, the
fatigue factor of the state reached by one `wait_human` is within
`[0, 2]`. -/
theorem fatigue_factor_spec_witness :
    0 ≤ (wait_human (HumanBehavior.init 0 50) 1800).fatigue_factor ∧
      (wait_human (HumanBehavior.init 0 50) 1800).fatigue_factor ≤ 2 :=
  fatigue_factor_spec.1 1800 _
    (Reachable.wait 1800 (Reachable.init 0 50) (by norm_num))

/-- Claim C5: in every reachable humanizer state and for every Gaussian
draw (hence for every base delay and variance), the delay returned by
`human_delay` lies in `[0.3, 1.5 + 2.0 * 0.5] = [0.3, 2.5]` seconds: the
draw is clamped to `[0.3, 1.5]` and `fatigue * 0.5` with fatigue in
`[0, 2]` is added. -/
theorem human_delay_bounds (t : ℚ) (s : HumanBehavior) (g : ℚ)
    (h : Reachable t s) :
    3 / 10 ≤ human_delay s g ∧ human_delay s g ≤ 5 / 2 := by
  obtain ⟨-, hf0, hf2, hmin, hmax⟩ := reachable_inv t s h
  unfold human_delay
  rw [hmin, hmax]
  constructor
  · have h1 : (3 : ℚ) / 10 ≤ max (3 / 10) (min (3 / 2) g) := le_max_left _ _
    nlinarith
  · have h1 : max ((3 : ℚ) / 10) (min (3 / 2) g) ≤ 3 / 2 :=
      max_le (by norm_num) (min_le_left _ _)
    nlinarith

/-- Claim C5 witness: the delay bounds hold at the freshly initialized
state for the concrete draw 1. -/
theorem human_delay_bounds_witness :
    3 / 10 ≤ human_delay (HumanBehavior.init 0 50) 1 ∧
      human_delay (HumanBehavior.init 0 50) 1 ≤ 5 / 2 :=
  human_delay_bounds 0 (HumanBehavior.init 0 50) 1 (Reachable.init 0 50)

/-! ## Lemmas about the session randomizer -/

theorem cons_set_perm {α : Type u} (xs : List α) (k : Nat) (b c : α)
    (h : xs[k]? = some b) : List.Perm (b :: xs.set k c) (c :: xs) := by
  induction xs generalizing k with
  | nil => simp at h
  | cons y ys ih =>
    cases k with
    | zero =>
      simp at h
      subst h
      rw [List.set_cons_zero]
      exact List.Perm.swap c y ys
    | succ k =>
      simp at h
      have hstep := ih k h
      rw [List.set_cons_succ]
      have t1 : List.Perm (b :: y :: ys.set k c) (y :: b :: ys.set k c) :=
        List.Perm.swap y b _
      have t2 : List.Perm (y :: b :: ys.set k c) (y :: c :: ys) :=
        hstep.cons y
      have t3 : List.Perm (y :: c :: ys) (c :: y :: ys) :=
        List.Perm.swap c y ys
      exact t1.trans (t2.trans t3)

theorem set_set_perm {α : Type u} (l : List α) (i j : Nat) (a b : α)
    (hi : l[i]? = some a) (hj : l[j]? = some b) :
    List.Perm ((l.set i b).set j a) l := by
  induction l generalizing i j with
  | nil => simp at hi
  | cons x xs ih =>
    cases i with
    | zero =>
      simp at hi
      cases j with
      | zero =>
        simp at hj
        rw [List.set_cons_zero, List.set_cons_zero, hi]
      | succ j =>
        simp at hj
        rw [List.set_cons_zero, List.set_cons_succ, hi]
        exact cons_set_perm xs j b a hj
    | succ i =>
      simp at hi
      cases j with
      | zero =>
        simp at hj
        rw [List.set_cons_succ, List.set_cons_zero, hj]
        exact cons_set_perm xs i a b hi
      | succ j =>
        simp at hj
        rw [List.set_cons_succ, List.set_cons_succ]
        exact (ih i j hi hj).cons x

theorem listSwap_perm {α : Type u} (l : List α) (i j : Nat) :
    List.Perm (listSwap l i j) l := by
  unfold listSwap
  split
  next a b hi hj => exact set_set_perm l i j a b hi hj
  next => exact List.Perm.refl l

theorem shuffleAux_perm {α : Type u} (r : Nat → Nat) (n : Nat) (l : List α) :
    List.Perm (shuffleAux r n l) l := by
  induction n generalizing l with
  | zero => exact List.Perm.refl l
  | succ n ih =>
    exact List.Perm.trans (ih _) (listSwap_perm l (n + 1) (r (n + 1) % (n + 2)))

/-- Claim C9: `randomize_task_order` returns a permutation of its input:
the output contains the same multiset of tasks as the input and has the
same length, only the order may differ. -/
theorem randomize_task_order_perm {α : Type u} (r : Nat → Nat)
    (tasks : List α) :
    List.Perm (randomize_task_order r tasks) tasks ∧
      (randomize_task_order r tasks).length = tasks.length := by
  have hp := shuffleAux_perm r (tasks.length - 1) tasks
  exact ⟨hp, hp.length_eq⟩

/-! ## Lemmas about the Bezier path generator -/

theorem pyInt_intCast (m : ℤ) : pyInt (m : ℚ) = m := by
  unfold pyInt
  simp [Int.tdiv_one]

theorem bezierPoint_zero (s c1 c2 e : ℤ × ℤ) : bezierPoint s c1 c2 e 0 = s := by
  unfold bezierPoint
  have hx : (1 - (0 : ℚ)) ^ 3 * s.1 + 3 * (1 - 0) ^ 2 * 0 * c1.1 +
      3 * (1 - 0) * 0 ^ 2 * c2.1 + 0 ^ 3 * e.1 = (s.1 : ℚ) := by ring
  have hy : (1 - (0 : ℚ)) ^ 3 * s.2 + 3 * (1 - 0) ^ 2 * 0 * c1.2 +
      3 * (1 - 0) * 0 ^ 2 * c2.2 + 0 ^ 3 * e.2 = (s.2 : ℚ) := by ring
  rw [hx, hy, pyInt_intCast, pyInt_intCast]

theorem bezierPoint_one (s c1 c2 e : ℤ × ℤ) : bezierPoint s c1 c2 e 1 = e := by
  unfold bezierPoint
  have hx : (1 - (1 : ℚ)) ^ 3 * s.1 + 3 * (1 - 1) ^ 2 * 1 * c1.1 +
      3 * (1 - 1) * 1 ^ 2 * c2.1 + 1 ^ 3 * e.1 = (e.1 : ℚ) := by ring
  have hy : (1 - (1 : ℚ)) ^ 3 * s.2 + 3 * (1 - 1) ^ 2 * 1 * c1.2 +
      3 * (1 - 1) * 1 ^ 2 * c2.2 + 1 ^ 3 * e.2 = (e.2 : ℚ) := by ring
  rw [hx, hy, pyInt_intCast, pyInt_intCast]

theorem bezierAux_ok (s c1 c2 e : ℤ × ℤ) (n : Nat) (hn : (n : ℤ) - 1 ≠ 0)
    (l : List Nat) :
    bezierAux s c1 c2 e n l =
      Except.ok (l.map
        (fun i : Nat => bezierPoint s c1 c2 e ((i : ℚ) / ((n : ℚ) - 1)))) := by
  induction l with
  | nil => rfl
  | cons i is ih =>
    unfold bezierAux
    rw [if_neg hn, ih]
    rfl

/-- Claim C10: `bezier_curve` is total exactly on `num_points >= 2` (plus
the degenerate empty range): for every start, end, control points and
`num_points >= 2` it returns `num_points` points, the first equal to the
start point and the last equal to the end point; calling it with
`num_points = 1` raises `ZeroDivisionError` (`t = i / (num_points - 1)`)
instead of returning a path. -/
theorem bezier_curve_spec :
    (∀ s c1 c2 e : ℤ × ℤ, ∀ n : Nat, 2 ≤ n →
      bezier_curve s c1 c2 e n = Except.ok (bezierPts s c1 c2 e n) ∧
      (bezierPts s c1 c2 e n).length = n ∧
      (bezierPts s c1 c2 e n).head? = some s ∧
      (bezierPts s c1 c2 e n).getLast? = some e) ∧
    (∀ s c1 c2 e : ℤ × ℤ,
      bezier_curve s c1 c2 e 1 = Except.error PyError.zeroDivision) := by
  constructor
  · intro s c1 c2 e n hn
    obtain ⟨m, rfl⟩ : ∃ m, n = m + 1 := ⟨n - 1, by omega⟩
    have hm : 1 ≤ m := by omega
    have hne : ((m + 1 : Nat) : ℤ) - 1 ≠ 0 := by push_cast; omega
    have hq : ((m + 1 : Nat) : ℚ) - 1 = (m : ℚ) := by push_cast; ring
    refine ⟨bezierAux_ok s c1 c2 e (m + 1) hne (List.range (m + 1)), ?_, ?_, ?_⟩
    · simp [bezierPts]
    · rw [bezierPts, List.range_succ_eq_map]
      simp only [List.map_cons, List.head?_cons, Nat.cast_zero, zero_div]
      rw [bezierPoint_zero]
    · rw [bezierPts, List.range_succ, List.map_append]
      simp only [List.map_cons, List.map_nil]
      rw [List.getLast?_concat]
      have ht : ((m : Nat) : ℚ) / (((m + 1 : Nat) : ℚ) - 1) = 1 := by
        rw [hq]
        have hm0 : ((m : Nat) : ℚ) ≠ 0 := by
          have : (0 : ℚ) < (m : ℚ) := by exact_mod_cast hm
          exact ne_of_gt this
        exact div_self hm0
      rw [ht, bezierPoint_one]
  · intro s c1 c2 e
    unfold bezier_curve
    have hr : List.range 1 = [0] := by
      rw [List.range_succ, List.range_zero]
      rfl
    rw [hr]
    unfold bezierAux
    norm_num

/-- Claim C10 witness: the spec instantiated at `num_points = 2` with
concrete start, control and end points. -/
theorem bezier_curve_spec_witness :
    bezier_curve (0, 0) (1, 1) (2, 2) (10, 10) 2 =
        Except.ok (bezierPts (0, 0) (1, 1) (2, 2) (10, 10) 2) ∧
      (bezierPts (0, 0) (1, 1) (2, 2) (10, 10) 2).length = 2 ∧
      (bezierPts (0, 0) (1, 1) (2, 2) (10, 10) 2).head? = some (0, 0) ∧
      (bezierPts (0, 0) (1, 1) (2, 2) (10, 10) 2).getLast? = some (10, 10) :=
  bezier_curve_spec.1 (0, 0) (1, 1) (2, 2) (10, 10) 2 (by norm_num)

/-! ## Lemmas about the task state machine -/

theorem resourceGathering_cases (env : Nat → Bool) (rt : ResourceKind) :
    resourceGatheringExecute env rt = (true, 1) ∨
      resourceGatheringExecute env rt = (false, 0) := by
  unfold resourceGatheringExecute
  dsimp only
  split_ifs <;> simp

/-- Claim C3 counterexample: a perception stub that finds the hospital
(call 0) but fails the heal-all step (call 1) makes
`HealTroopsTask.execute` return `true`, not `false`: the claimed universal
abort-on-missing-template rule does not hold for `HealTroopsTask`. -/
theorem healTroops_missing_template_cex :
    healTroopsExecute (fun n => decide (n = 0)) = true ∧
      ¬ healTroopsExecute (fun n => decide (n = 0)) = false := by
  constructor
  · rfl
  · simp [healTroopsExecute, find_and_tap]

/-- Claim C3 amended: a failing step aborts `ResourceGatheringTask.execute`
with `false` and zero gathering-trip events — in particular a perception
failure at the find-resource-node step — and `HealTroopsTask.execute`
aborts with `false` when the hospital template (its first step) is missing;
but when the hospital is found and the heal-all or confirm template is
missing, `HealTroopsTask.execute` returns `true` (treated as "no wounded
troops"), not `false`. -/
theorem task_abort_spec :
    (∀ env rt, (resourceGatheringExecute env rt).1 = false →
      (resourceGatheringExecute env rt).2 = 0) ∧
    (∀ env rt, (navigate_to_map env 0).1 = true →
      (find_resource_node env rt (navigate_to_map env 0).2).1 = false →
      resourceGatheringExecute env rt = (false, 0)) ∧
    (∀ env, env 0 = false → healTroopsExecute env = false) ∧
    (∀ env, env 0 = true → healTroopsExecute env = true) := by
  refine ⟨?_, ?_, ?_, ?_⟩
  · intro env rt h
    rcases resourceGathering_cases env rt with hc | hc <;> rw [hc] at h ⊢
    simp at h
  · intro env rt h1 h2
    simp only [navigate_to_map, find_and_tap] at h1 h2
    unfold resourceGatheringExecute
    dsimp only
    simp only [navigate_to_map, find_and_tap, h1, if_true]
    rw [if_neg]
    simp [h2]
  · intro env h
    simp [healTroopsExecute, find_and_tap, h]
  · intro env h
    simp [healTroopsExecute, find_and_tap, h, ite_self]

/-- Claim C3 witness: a perception stub succeeding at the navigate step
(call 0) and failing at the find-resource-node step (call 1) makes
`ResourceGatheringTask.execute` return `false` with zero gathering-trip
events. -/
theorem task_abort_spec_witness :
    resourceGatheringExecute (fun n => decide (n = 0)) ResourceKind.food =
      (false, 0) :=
  task_abort_spec.2.1 (fun n => decide (n = 0)) ResourceKind.food rfl rfl

/-! ## Lemmas about the barbarian attack loop -/

theorem barbAux_checks_eq_completed (attacks : Nat → Bool) :
    ∀ rem i, (barbAux attacks i rem).2.2 = (barbAux attacks i rem).1 := by
  intro rem
  induction rem with
  | zero => intro i; rfl
  | succ rem ih =>
    intro i
    cases h : attacks i <;> simp [barbAux, h, ih]

theorem barbAux_attempts_le (attacks : Nat → Bool) :
    ∀ rem i, (barbAux attacks i rem).2.1 ≤ rem := by
  intro rem
  induction rem with
  | zero => intro i; exact le_refl 0
  | succ rem ih =>
    intro i
    cases h : attacks i <;> simp [barbAux, h]
    exact ih (i + 1)

theorem barbAux_all_true (attacks : Nat → Bool) :
    ∀ rem i, (∀ k, k < rem → attacks (i + k) = true) →
      barbAux attacks i rem = (rem, rem, rem) := by
  intro rem
  induction rem with
  | zero => intro i _; rfl
  | succ rem ih =>
    intro i h
    have h0 : attacks i = true := by
      have := h 0 (by omega)
      rwa [Nat.add_zero] at this
    have hrec := ih (i + 1) (fun k hk => by
      have := h (k + 1) (by omega)
      rwa [show i + (k + 1) = i + 1 + k by omega] at this)
    simp [barbAux, h0, hrec]

theorem barbAux_first_fail (attacks : Nat → Bool) :
    ∀ k rem i, k < rem → (∀ j, j < k → attacks (i + j) = true) →
      attacks (i + k) = false →
      (barbAux attacks i rem).1 = k ∧ (barbAux attacks i rem).2.1 = k + 1 := by
  intro k
  induction k with
  | zero =>
    intro rem i hlt hpre hf
    obtain ⟨r, rfl⟩ : ∃ r, rem = r + 1 := ⟨rem - 1, by omega⟩
    rw [Nat.add_zero] at hf
    simp [barbAux, hf]
  | succ k ih =>
    intro rem i hlt hpre hf
    obtain ⟨r, rfl⟩ : ∃ r, rem = r + 1 := ⟨rem - 1, by omega⟩
    have h0 : attacks i = true := by
      have := hpre 0 (by omega)
      rwa [Nat.add_zero] at this
    have hrec := ih r (i + 1) (by omega)
      (fun j hj => by
        have := hpre (j + 1) (by omega)
        rwa [show i + (j + 1) = i + 1 + j by omega] at this)
      (by rwa [show i + (k + 1) = i + 1 + k by omega] at hf)
    simp [barbAux, h0, hrec.1, hrec.2]

theorem barbAux_pos_iff (attacks : Nat → Bool) (rem i : Nat) :
    0 < (barbAux attacks i rem).1 ↔ 0 < rem ∧ attacks i = true := by
  cases rem with
  | zero => simp [barbAux]
  | succ rem => cases h : attacks i <;> simp [barbAux, h]

/-- Claim C6 counterexample: with `attack_count = 1` and the single attack
failing, the loop makes one attempt but performs zero humanizer break
checks (the `break` on failure precedes the check), refuting "applies the
humanizer break check after each attempt". -/
theorem barbarian_attack_cex :
    barbarianAttackExecute (fun _ => false) 1 = (false, 0, 1, 0) ∧
      ¬ (barbarianAttackExecute (fun _ => false) 1).2.2.2 =
          (barbarianAttackExecute (fun _ => false) 1).2.2.1 := by
  constructor
  · rfl
  · intro h
    simp [barbarianAttackExecute, barbAux] at h

/-- Claim C6 amended: `BarbarianAttackTask.execute` repeats the attack
sequence up to `attack_count` times (exactly `attack_count` when no attack
fails), stops early right after the first failed attack, applies the
humanizer break check after each successful attempt (a failed attempt
breaks out before the check), and returns `true` exactly when at least one
attack succeeded (equivalently, when `attack_count > 0` and the first
attack succeeds). -/
theorem barbarian_attack_spec :
    (∀ attacks : Nat → Bool, ∀ n : Nat,
      ((barbarianAttackExecute attacks n).1 = true ↔ 0 < n ∧ attacks 0 = true) ∧
      (barbarianAttackExecute attacks n).2.2.2 =
        (barbarianAttackExecute attacks n).2.1 ∧
      (barbarianAttackExecute attacks n).2.2.1 ≤ n) ∧
    (∀ attacks : Nat → Bool, ∀ n : Nat, (∀ k, k < n → attacks k = true) →
      barbarianAttackExecute attacks n = (decide (0 < n), n, n, n)) ∧
    (∀ attacks : Nat → Bool, ∀ n k : Nat, k < n →
      (∀ j, j < k → attacks j = true) → attacks k = false →
      (barbarianAttackExecute attacks n).2.1 = k ∧
      (barbarianAttackExecute attacks n).2.2.1 = k + 1) := by
  refine ⟨?_, ?_, ?_⟩
  · intro attacks n
    refine ⟨?_, ?_, ?_⟩
    · simp only [barbarianAttackExecute, decide_eq_true_eq]
      exact barbAux_pos_iff attacks n 0
    · simp only [barbarianAttackExecute]
      exact barbAux_checks_eq_completed attacks n 0
    · simp only [barbarianAttackExecute]
      exact barbAux_attempts_le attacks n 0
  · intro attacks n h
    have := barbAux_all_true attacks n 0 (fun k hk => by
      have := h k hk
      rwa [Nat.zero_add])
    simp [barbarianAttackExecute, this, barbAux_pos_iff]
  · intro attacks n k hlt hpre hf
    have := barbAux_first_fail attacks k n 0 hlt
      (fun j hj => by rw [Nat.zero_add]; exact hpre j hj)
      (by rwa [Nat.zero_add])
    simp [barbarianAttackExecute, this.1, this.2]

/-- Claim C6 witness: three attacks that all succeed give three attempts,
three completions, three break checks and overall success. -/
theorem barbarian_attack_spec_witness :
    barbarianAttackExecute (fun _ => true) 3 = (decide (0 < 3), 3, 3, 3) :=
  barbarian_attack_spec.2.1 (fun _ => true) 3 (fun _ _ => rfl)

/-! ## Lemmas about the bulk-collection loops -/

theorem bulkCollect_le (env : Nat → Bool) :
    ∀ rem k, bulkCollect env k rem ≤ rem := by
  intro rem
  induction rem with
  | zero => intro k; exact le_refl 0
  | succ rem ih =>
    intro k
    cases h : env k <;> simp [bulkCollect, h]
    exact ih (k + 1)

theorem bulkCollect_all_true :
    ∀ rem k, bulkCollect (fun _ => true) k rem = rem := by
  intro rem
  induction rem with
  | zero => intro k; rfl
  | succ rem ih => intro k; simp [bulkCollect, ih]

/-- Claim C7: the find-collectible-then-act loops are bounded by their
safety caps — for every sequence of perception results,
`AllianceHelpTask.execute` performs at most 50 collection iterations and
`DailyQuestsTask.execute` at most 20 — and the caps are reached exactly
when the template is found on every call. -/
theorem bulk_collection_caps :
    (∀ env : Nat → Bool, (allianceHelpExecute env).2 ≤ 50) ∧
    (∀ env : Nat → Bool, (dailyQuestsExecute env).2 ≤ 20) ∧
    (allianceHelpExecute (fun _ => true)).2 = 50 ∧
    (dailyQuestsExecute (fun _ => true)).2 = 20 := by
  refine ⟨?_, ?_, ?_, ?_⟩
  · intro env
    unfold allianceHelpExecute
    split_ifs <;> simp [bulkCollect_le]
  · intro env
    unfold dailyQuestsExecute
    split_ifs <;> simp [bulkCollect_le]
  · simp [allianceHelpExecute, bulkCollect_all_true]
  · simp [dailyQuestsExecute, bulkCollect_all_true]

/-! ## Lemmas about the control loop -/

/-- Claim C8: the control loop exits only when the running flag is false
(for every cycle body, fuel and start state, a terminated loop ends in a
state with `running = false`); an exception raised by the cycle body while
running is caught at the loop level, the fixed 30-second cooldown is
recorded, and the loop continues unchanged; and a false running flag makes
the loop stop at once. -/
theorem control_loop_spec :
    (∀ body, ∀ n : Nat, ∀ s s' : BotState,
      (runLoop body n s).1 = some s' → s'.running = false) ∧
    (∀ body, ∀ n : Nat, ∀ s : BotState, s.running = true →
      ∀ e : Unit, body n s = Except.error e →
      (runLoop body (n + 1) s).1 = (runLoop body n s).1 ∧
      (runLoop body (n + 1) s).2 =
        LoopEvent.errorCooldown 30 :: (runLoop body n s).2) ∧
    (∀ body, ∀ n : Nat, ∀ s : BotState, s.running = false →
      runLoop body (n + 1) s = (some s, [])) := by
  refine ⟨?_, ?_, ?_⟩
  · intro body n
    induction n with
    | zero =>
      intro s s' h
      simp [runLoop] at h
    | succ n ih =>
      intro s s' h
      unfold runLoop at h
      cases hrun : s.running with
      | false =>
        rw [hrun] at h
        simp at h
        rw [← h]
        exact hrun
      | true =>
        rw [hrun] at h
        simp only [if_true] at h
        rcases hb : body n s with e | p <;> rw [hb] at h
        · simp at h
          exact ih s s' h
        · simp at h
          exact ih p.1 s' h
  · intro body n s hr e hb
    constructor <;> simp [runLoop, hr, hb]
  · intro body n s hr
    simp [runLoop, hr]

/-- Claim C8 witness: a body that always raises, started running, yields
one recorded 30-second cooldown per iteration and the loop continues. -/
theorem control_loop_spec_witness :
    (runLoop (fun _ _ => Except.error ()) 1 ⟨true, false⟩).1 =
        (runLoop (fun _ _ => Except.error ()) 0 ⟨true, false⟩).1 ∧
      (runLoop (fun _ _ => Except.error ()) 1 ⟨true, false⟩).2 =
        LoopEvent.errorCooldown 30 ::
          (runLoop (fun _ _ => Except.error ()) 0 ⟨true, false⟩).2 :=
  control_loop_spec.2.1 (fun _ _ => Except.error ()) 0 ⟨true, false⟩ rfl () rfl
